import Mathlib

/-!
# ConvI conversation normalizer — verification development

Shallow embedding of `app/conversation_normalizer/__init__.py`:
role assignment from diarized speakers, the audio-path normalizer
`normalize_from_speech`, the text-path parser `normalize_from_text`, and the
dialogue renderer `turns_to_dialogue_string`.  Python string semantics
(`str.strip`, `str.splitlines`, `str.join`, `str.capitalize`, the three
anchored prefix regexes and ASCII case folding of `re.I`) are modelled by
explicit functions over the character list of a `String`.
-/

namespace ConvI

/-- Modelled from the spec: the `Role` enumeration from `app.schemas`
(not under the sources), values over {agent, customer, unknown}. -/
inductive Role where
  | agent
  | customer
  | unknown
deriving DecidableEq, Repr

/-- Modelled from the spec: the string value carried by each `Role` enum
member, used by the renderer via `t.role.value.capitalize()`. -/
def Role.value : Role → String
  | Role.agent => "agent"
  | Role.customer => "customer"
  | Role.unknown => "unknown"

/-- Modelled from the spec: `SpeechSegment` from `app.speech_pipeline.schemas`
(not under the sources): speaker identifier, original text, language code,
optional emotion label and numeric time bounds.  Times are numeric and are
only copied by the core, never computed with; they are modelled as `Int`. -/
structure SpeechSegment where
  speaker_id : String
  original_text : String
  language : String
  emotion : Option String
  start_time : Int
  end_time : Int
deriving DecidableEq, Repr

/-- Modelled from the spec: `ConversationTurn` from `app.schemas`
(not under the sources).  Time bounds are optional (absent on the text
path). -/
structure ConversationTurn where
  speaker_id : String
  role : Role
  original_text : String
  normalized_text_en : String
  language : String
  emotion : Option String
  start_time : Option Int
  end_time : Option Int
deriving DecidableEq, Repr

/-! ## Python string-semantics helpers (character-list models) -/

/-- ASCII lower-casing of one character (the case folding relevant to the
`re.I` regexes and `str.lower` on the ASCII labels involved). -/
def charLower (c : Char) : Char :=
  if 'A' ≤ c ∧ c ≤ 'Z' then Char.ofNat (c.toNat + 32) else c

/-- ASCII upper-casing of one character (model of `str.upper` on the ASCII
speaker labels involved). -/
def charUpper (c : Char) : Char :=
  if 'a' ≤ c ∧ c ≤ 'z' then Char.ofNat (c.toNat - 32) else c

/-- Model of `str.upper` for the ASCII labels this code handles. -/
def upperStr (s : String) : String :=
  String.mk (s.data.map charUpper)

/-- The whitespace class of Python `str.strip` / regex `\s` (ASCII part). -/
def isSpaceChar (c : Char) : Bool :=
  c = ' ' ∨ c = '\t' ∨ c = '\n' ∨ c = '\r' ∨ c = '\x0b' ∨ c = '\x0c'

/-- Strip leading and trailing whitespace from a character list
(model of Python `str.strip`). -/
def stripList (l : List Char) : List Char :=
  ((l.dropWhile isSpaceChar).reverse.dropWhile isSpaceChar).reverse

/-- Model of Python `str.strip`. -/
def pyStrip (s : String) : String :=
  String.mk (stripList s.data)

/-- Split a character list at every occurrence of `sep`
(model of splitting a Python string on the newline character;
`str.splitlines` is modelled as splitting on `\n`, the only line boundary
this pipeline produces). -/
def splitCharList (sep : Char) : List Char → List (List Char)
  | [] => [[]]
  | c :: cs =>
    if c = sep then [] :: splitCharList sep cs
    else
      match splitCharList sep cs with
      | [] => [[c]]
      | h :: t => (c :: h) :: t

/-- Model of `str.splitlines` on already-stripped transcripts: split the
string on the newline character. -/
def splitLines (s : String) : List String :=
  (splitCharList '\n' s.data).map String.mk

/-- Concatenate the parts with `sep` between consecutive parts
(model of Python `sep.join(parts)` on character lists). -/
def joinSep (sep : List Char) : List (List Char) → List Char
  | [] => []
  | [x] => x
  | x :: y :: xs => x ++ sep ++ joinSep sep (y :: xs)

/-- Model of Python `sep.join(parts)`. -/
def pyJoin (sep : String) (parts : List String) : String :=
  String.mk (joinSep sep.data (parts.map String.data))

/-- Model of Python `str.capitalize`: first character upper-cased, the rest
lower-cased. -/
def pyCapitalize (s : String) : String :=
  match s.data with
  | [] => ""
  | c :: cs => String.mk (charUpper c :: cs.map charLower)

/-! ## Role assignment (`_assign_roles_from_speakers`) -/

/-- One iteration of the `speakers_seen` loop of
`_assign_roles_from_speakers`: append the segment's speaker identifier
unless it was already seen. -/
def seenStep (acc : List String) (seg : SpeechSegment) : List String :=
  if seg.speaker_id ∈ acc then acc else acc ++ [seg.speaker_id]

/-- The loop of `_assign_roles_from_speakers` collecting each speaker
identifier at its first occurrence, in order of first appearance. -/
def speakersSeen (segments : List SpeechSegment) : List String :=
  segments.foldl seenStep []

/-- `_assign_roles_from_speakers`: the first-seen speaker maps to `agent`,
every other distinct speaker to `customer`.  The Python `dict` (distinct
keys, insertion order) is modelled as an association list queried with
`List.lookup`. -/
def assignRolesFromSpeakers (segments : List SpeechSegment) : List (String × Role) :=
  (speakersSeen segments).enum.map
    (fun p => (p.2, if p.1 = 0 then Role.agent else Role.customer))

/-! ## Audio path (`normalize_from_speech`) -/

/-- `normalize_from_speech`: empty input returns the empty list, otherwise
each segment becomes one turn, with the role looked up in the role map
(defaulting to `unknown`) and `normalized_text_en` set to the original
text (translation is a deferred extension point). -/
def normalize_from_speech (segments : List SpeechSegment) : List ConversationTurn :=
  if segments.isEmpty then []
  else
    let role_map := assignRolesFromSpeakers segments
    segments.map (fun seg =>
      { speaker_id := seg.speaker_id
        role := (role_map.lookup seg.speaker_id).getD Role.unknown
        original_text := seg.original_text
        normalized_text_en := seg.original_text
        language := seg.language
        emotion := seg.emotion
        start_time := some seg.start_time
        end_time := some seg.end_time })

/-! ## Text path (`normalize_from_text`) -/

/-- The alternatives of `_AGENT_PREFIX` (the regex is compiled with `re.I`,
so the `Agent`/`AGENT` alternatives coincide). -/
def agentAliases : List String :=
  ["Agent", "AGENT", "Support", "CSR", "Representative"]

/-- The alternatives of `_CUSTOMER_PREFIX`. -/
def customerAliases : List String :=
  ["Customer", "CUSTOMER", "Client", "User", "Caller"]

/-- Case-insensitively remove the alias `pre` from the front of `l`; `none`
when `l` does not start with it.  Models matching one regex alternative
under `re.I`. -/
def dropPrefixCI (pre : List Char) (l : List Char) : Option (List Char) :=
  if (l.take pre.length).map charLower = pre.map charLower
  then some (l.drop pre.length) else none

/-- Require a colon or hyphen at the head and return what follows it. -/
def stripSepAux : List Char → Option (List Char)
  | [] => none
  | c :: rest => if c = ':' ∨ c = '-' then some rest else none

/-- Consume the `\s*[:\-]` part of the prefix regexes: skip whitespace, then
require a colon or hyphen and return what follows it. -/
def stripSep (l : List Char) : Option (List Char) :=
  stripSepAux (l.dropWhile isSpaceChar)

/-- Match one alias alternative (`alias\s*[:\-]\s*`) at the start of `line`
and return the remainder of the line after the matched prefix is removed
and the result stripped — exactly what `PREFIX.sub("", line).strip()`
computes when this alternative matches. -/
def labelText (a : String) (line : String) : Option String :=
  (dropPrefixCI a.data line.data).bind fun rest =>
    (stripSep rest).map fun tail => String.mk (stripList tail)

/-- Match one of the label regexes (`^(alias1|alias2|...)\s*[:\-]\s*`) at the
start of `line`: the first matching alternative wins. -/
def matchLabel (aliases : List String) (line : String) : Option String :=
  aliases.findSome? (fun a => labelText a line)

/-- Match `_SPEAKER_PREFIX` (`^(SPEAKER_\d+)\s*[:\-]\s*`, `re.I`): return the
matched group text (the first `8 + number-of-digits` characters of the
line, as they appear there) and the stripped remainder.  The greedy `\d+`
takes the maximal digit run and must be non-empty. -/
def matchSpeaker (line : String) : Option (String × String) :=
  (dropPrefixCI "SPEAKER_".data line.data).bind fun rest =>
    if rest.takeWhile Char.isDigit = [] then none
    else
      (stripSep (rest.drop (rest.takeWhile Char.isDigit).length)).map fun tail =>
        (String.mk (line.data.take (8 + (rest.takeWhile Char.isDigit).length)),
         String.mk (stripList tail))

/-- The per-line classification of `normalize_from_text` (lines 136–155 of
the source): returns `(role, text, speaker_id)` for the `i`-th non-blank
line. -/
def classifyLine (i : Nat) (line : String) : Role × String × String :=
  match matchLabel agentAliases line with
  | some text => (Role.agent, text, "AGENT")
  | none =>
    match matchLabel customerAliases line with
    | some text => (Role.customer, text, "CUSTOMER")
    | none =>
      match matchSpeaker line with
      | some (grp, text) =>
        let speaker_id := upperStr grp
        (if speaker_id = "SPEAKER_00" then Role.agent else Role.customer,
         text, speaker_id)
      | none =>
        let role := if i % 2 = 0 then Role.agent else Role.customer
        (role, line, if role = Role.agent then "AGENT" else "CUSTOMER")

/-- Build the turn for the `i`-th non-blank line, or `none` when the text is
empty after prefix stripping (`if not text: continue`). -/
def mkTextTurn (language : String) (i : Nat) (line : String) : Option ConversationTurn :=
  let rts := classifyLine i line
  if rts.2.1 = "" then none
  else some
    { speaker_id := rts.2.2
      role := rts.1
      original_text := rts.2.1
      normalized_text_en := rts.2.1
      language := language
      emotion := none
      start_time := none
      end_time := none }

/-- `[l.strip() for l in transcript.strip().splitlines() if l.strip()]`:
the stripped, non-blank lines of the transcript. -/
def parsedLines (transcript : String) : List String :=
  ((splitLines (pyStrip transcript)).map pyStrip).filter (fun l => decide (l ≠ ""))

/-- `normalize_from_text` (the Python signature defaults `language` to
`"en"`; the language is passed explicitly here). -/
def normalize_from_text (transcript : String) (language : String) : List ConversationTurn :=
  (parsedLines transcript).enum.filterMap (fun p => mkTextTurn language p.1 p.2)

/-! ## Dialogue renderer (`turns_to_dialogue_string`) -/

/-- One rendered line: `f"{role_label}{emotion_tag}: {t.normalized_text_en}"`
where `role_label = t.role.value.capitalize()` and the emotion tag is
present only when `t.emotion` is truthy (neither `None` nor the empty
string). -/
def renderTurnLine (t : ConversationTurn) : String :=
  let role_label := pyCapitalize t.role.value
  let emotion_tag :=
    match t.emotion with
    | some e => if e = "" then "" else " [" ++ e ++ "]"
    | none => ""
  role_label ++ emotion_tag ++ ": " ++ t.normalized_text_en

/-- `turns_to_dialogue_string`: render each turn and join with `"\n"`. -/
def turns_to_dialogue_string (turns : List ConversationTurn) : String :=
  pyJoin "\n" (turns.map renderTurnLine)

/-- The line-counting convention of the round-trip property: splitting on
newlines, with the empty string counting as zero lines (as Python
`str.splitlines` does on the renderer's output, which never ends in a
newline). -/
def countLines (s : String) : Nat :=
  if s = "" then 0 else (splitLines s).length

/-- Concrete speech segment (spec scenario, first occurrence of SPEAKER_01). -/
def segW1 : SpeechSegment := ⟨"SPEAKER_01", "hello", "en", none, 0, 2⟩

/-- Concrete speech segment (spec scenario, SPEAKER_00). -/
def segW2 : SpeechSegment := ⟨"SPEAKER_00", "hi", "en", none, 2, 4⟩

/-- Concrete speech segment (spec scenario, second occurrence of SPEAKER_01). -/
def segW3 : SpeechSegment := ⟨"SPEAKER_01", "bye", "en", none, 4, 6⟩

/-- The turn produced for `segW1` by the audio-path normalizer. -/
def turnW : ConversationTurn :=
  ⟨"SPEAKER_01", Role.agent, "hello", "hello", "en", none, some 0, some 2⟩

/-! ## Lemmas about the role assigner -/

theorem foldl_seenStep_head (l : List SpeechSegment) (a : String) (rest : List String) :
    ∃ r2, List.foldl seenStep (a :: rest) l = a :: r2 := by
  induction l generalizing rest with
  | nil => exact ⟨rest, rfl⟩
  | cons seg l ih =>
    rw [List.foldl_cons]
    unfold seenStep
    split
    · exact ih rest
    · rw [List.cons_append]
      exact ih (rest ++ [seg.speaker_id])

theorem mem_foldl_seenStep (l : List SpeechSegment) (acc : List String) (s : String) :
    s ∈ List.foldl seenStep acc l ↔ s ∈ acc ∨ ∃ seg, seg ∈ l ∧ seg.speaker_id = s := by
  induction l generalizing acc with
  | nil => simp
  | cons seg l ih =>
    have hstep : s ∈ seenStep acc seg ↔ s ∈ acc ∨ s = seg.speaker_id := by
      unfold seenStep
      split
      · next hmem =>
        constructor
        · exact Or.inl
        · rintro (h | rfl)
          · exact h
          · exact hmem
      · simp [List.mem_append]
    rw [List.foldl_cons, ih, hstep]
    constructor
    · rintro ((h | rfl) | ⟨seg2, h2, rfl⟩)
      · exact Or.inl h
      · exact Or.inr ⟨seg, List.mem_cons_self seg l, rfl⟩
      · exact Or.inr ⟨seg2, List.mem_cons_of_mem seg h2, rfl⟩
    · rintro (h | ⟨seg2, h2, rfl⟩)
      · exact Or.inl (Or.inl h)
      · rcases List.mem_cons.mp h2 with rfl | h3
        · exact Or.inl (Or.inr rfl)
        · exact Or.inr ⟨seg2, h3, rfl⟩

theorem mem_speakersSeen (segments : List SpeechSegment) (s : String) :
    s ∈ speakersSeen segments ↔ ∃ seg, seg ∈ segments ∧ seg.speaker_id = s := by
  unfold speakersSeen
  rw [mem_foldl_seenStep]
  simp

theorem speakersSeen_cons (seg : SpeechSegment) (rest : List SpeechSegment) :
    ∃ r2, speakersSeen (seg :: rest) = seg.speaker_id :: r2 := by
  unfold speakersSeen
  rw [List.foldl_cons]
  have h : seenStep [] seg = [seg.speaker_id] := by
    unfold seenStep
    simp
  rw [h]
  exact foldl_seenStep_head rest seg.speaker_id []

theorem enumFrom_map_customer (l : List String) (n : Nat) (h : n ≠ 0) :
    (List.enumFrom n l).map (fun p => (p.2, if p.1 = 0 then Role.agent else Role.customer))
      = l.map (fun s => (s, Role.customer)) := by
  induction l generalizing n with
  | nil => rfl
  | cons a l ih =>
    rw [List.enumFrom_cons, List.map_cons, List.map_cons]
    rw [ih (n + 1) (by omega)]
    simp [h]

theorem assignRoles_nil_of (segments : List SpeechSegment)
    (h : speakersSeen segments = []) : assignRolesFromSpeakers segments = [] := by
  unfold assignRolesFromSpeakers
  rw [h]
  rfl

theorem assignRoles_cons (segments : List SpeechSegment) (a : String) (r2 : List String)
    (h : speakersSeen segments = a :: r2) :
    assignRolesFromSpeakers segments
      = (a, Role.agent) :: r2.map (fun s => (s, Role.customer)) := by
  unfold assignRolesFromSpeakers
  rw [h]
  have he : (a :: r2).enum = (0, a) :: r2.enumFrom 1 := rfl
  rw [he, List.map_cons, enumFrom_map_customer r2 1 (by omega)]
  rfl

theorem lookup_map_customer (rest : List String) (s : String) :
    (rest.map (fun x => (x, Role.customer))).lookup s
      = if s ∈ rest then some Role.customer else none := by
  induction rest with
  | nil => simp
  | cons a rest ih =>
    rw [List.map_cons, List.lookup_cons]
    by_cases h : s = a
    · subst h
      simp
    · have hb : (s == a) = false := by simp [h]
      simp [hb, ih, h]

theorem lookup_assignRoles_of_mem (segments : List SpeechSegment) (s : String)
    (h : s ∈ speakersSeen segments) :
    (assignRolesFromSpeakers segments).lookup s = some Role.agent
    ∨ (assignRolesFromSpeakers segments).lookup s = some Role.customer := by
  cases hsp : speakersSeen segments with
  | nil =>
    rw [hsp] at h
    simp at h
  | cons a r2 =>
    rw [hsp] at h
    rw [assignRoles_cons _ _ _ hsp]
    by_cases h1 : s = a
    · subst h1
      left
      simp [List.lookup_cons]
    · have h2 : s ∈ r2 := by
        rcases List.mem_cons.mp h with h3 | h3
        · exact absurd h3 h1
        · exact h3
      right
      have hb : (s == a) = false := by simp [h1]
      simp [List.lookup_cons, hb, lookup_map_customer, h2]

/-! ## Claim theorems: role assigner and audio path -/

/-- C1: for a non-empty segment sequence the role assigner maps the speaker
of the first segment (the identifier with the earliest first occurrence) to
`agent` and every other occurring identifier to `customer`; the empty
sequence gives the empty mapping, and an identifier that does not occur is
not mapped at all. -/
theorem claim_C1 (segments : List SpeechSegment) (s : String) :
    (segments = [] → assignRolesFromSpeakers segments = [])
    ∧ (∀ seg0 rest, segments = seg0 :: rest →
        (assignRolesFromSpeakers segments).lookup seg0.speaker_id = some Role.agent
        ∧ ((∃ seg, seg ∈ segments ∧ seg.speaker_id = s) → s ≠ seg0.speaker_id →
            (assignRolesFromSpeakers segments).lookup s = some Role.customer))
    ∧ ((∀ seg, seg ∈ segments → seg.speaker_id ≠ s) →
        (assignRolesFromSpeakers segments).lookup s = none) := by
  refine ⟨?_, ?_, ?_⟩
  · rintro rfl
    rfl
  · rintro seg0 rest rfl
    obtain ⟨r2, h⟩ := speakersSeen_cons seg0 rest
    have hc := assignRoles_cons _ _ _ h
    constructor
    · rw [hc]
      simp [List.lookup_cons]
    · intro hocc hne
      have hmem : s ∈ speakersSeen (seg0 :: rest) := (mem_speakersSeen _ _).mpr hocc
      rw [h] at hmem
      rcases List.mem_cons.mp hmem with h1 | h2
      · exact absurd h1 hne
      · rw [hc]
        have hb : (s == seg0.speaker_id) = false := by simp [hne]
        simp [List.lookup_cons, hb, lookup_map_customer, h2]
  · intro habs
    have hnm : s ∉ speakersSeen segments := by
      rw [mem_speakersSeen]
      rintro ⟨seg, hm, rfl⟩
      exact habs seg hm rfl
    cases hsp : speakersSeen segments with
    | nil =>
      rw [assignRoles_nil_of _ hsp]
      rfl
    | cons a r2 =>
      rw [assignRoles_cons _ _ _ hsp]
      rw [hsp] at hnm
      have h1 : s ≠ a := fun e => hnm (e ▸ List.mem_cons_self a r2)
      have h2 : s ∉ r2 := fun e => hnm (List.mem_cons_of_mem a e)
      have hb : (s == a) = false := by simp [h1]
      simp [List.lookup_cons, hb, lookup_map_customer, h2]

/-- Witness for C1 at the spec's concrete scenario: segments with speakers
["SPEAKER_01","SPEAKER_00","SPEAKER_01"] map SPEAKER_01 to agent and
SPEAKER_00 to customer. -/
theorem claim_C1_witness :
    (assignRolesFromSpeakers [segW1, segW2, segW3]).lookup "SPEAKER_01" = some Role.agent
    ∧ (assignRolesFromSpeakers [segW1, segW2, segW3]).lookup "SPEAKER_00" = some Role.customer := by
  have h := (claim_C1 [segW1, segW2, segW3] "SPEAKER_00").2.1 segW1 [segW2, segW3] rfl
  refine ⟨h.1, h.2 ⟨segW2, by decide, rfl⟩ (by decide)⟩

theorem normalize_from_speech_cons (a : SpeechSegment) (l : List SpeechSegment) :
    normalize_from_speech (a :: l) = (a :: l).map (fun seg =>
      { speaker_id := seg.speaker_id
        role := ((assignRolesFromSpeakers (a :: l)).lookup seg.speaker_id).getD Role.unknown
        original_text := seg.original_text
        normalized_text_en := seg.original_text
        language := seg.language
        emotion := seg.emotion
        start_time := some seg.start_time
        end_time := some seg.end_time }) := rfl

/-- C3: the audio-path normalizer is a one-to-one, order-preserving map:
the output has the input's length (empty for empty input), and the i-th
turn copies the i-th segment's speaker, language, emotion and time bounds
unmodified, with `normalized_text_en` equal to the segment's original text
regardless of language. -/
theorem claim_C3 (segments : List SpeechSegment) (i : Nat) (seg : SpeechSegment) :
    normalize_from_speech [] = []
    ∧ (normalize_from_speech segments).length = segments.length
    ∧ (segments[i]? = some seg →
        ∃ t, (normalize_from_speech segments)[i]? = some t
          ∧ t.normalized_text_en = seg.original_text
          ∧ t.original_text = seg.original_text
          ∧ t.speaker_id = seg.speaker_id
          ∧ t.language = seg.language
          ∧ t.emotion = seg.emotion
          ∧ t.start_time = some seg.start_time
          ∧ t.end_time = some seg.end_time) := by
  refine ⟨rfl, ?_, ?_⟩
  · cases segments with
    | nil => rfl
    | cons a l =>
      rw [normalize_from_speech_cons]
      simp
  · intro h
    cases segments with
    | nil => simp at h
    | cons a l =>
      rw [normalize_from_speech_cons, List.getElem?_map, h]
      exact ⟨_, rfl, rfl, rfl, rfl, rfl, rfl, rfl, rfl⟩

/-- Witness for C3: a concrete non-English segment is copied through with
`normalized_text_en` equal to its original text. -/
theorem claim_C3_witness :
    ∃ t, (normalize_from_speech [⟨"S1", "hola", "es", some "joy", 0, 1⟩])[0]?
        = some t
      ∧ t.normalized_text_en = "hola"
      ∧ t.original_text = "hola"
      ∧ t.speaker_id = "S1"
      ∧ t.language = "es"
      ∧ t.emotion = some "joy"
      ∧ t.start_time = some 0
      ∧ t.end_time = some 1 :=
  (claim_C3 [⟨"S1", "hola", "es", some "joy", 0, 1⟩] 0
    ⟨"S1", "hola", "es", some "joy", 0, 1⟩).2.2 rfl

/-- C10: the defensive `unknown` fallback of `normalize_from_speech` is
unreachable: every segment's speaker identifier is a key of the role map
built from the same segment list, so no produced turn has role `unknown`. -/
theorem claim_C10 (segments : List SpeechSegment) (seg : SpeechSegment) (t : ConversationTurn) :
    (seg ∈ segments →
      ∃ r, (assignRolesFromSpeakers segments).lookup seg.speaker_id = some r
        ∧ r ≠ Role.unknown)
    ∧ (t ∈ normalize_from_speech segments → t.role ≠ Role.unknown) := by
  have key : ∀ sg : SpeechSegment, sg ∈ segments →
      ∃ r, (assignRolesFromSpeakers segments).lookup sg.speaker_id = some r
        ∧ r ≠ Role.unknown := by
    intro sg hm
    have hmem : sg.speaker_id ∈ speakersSeen segments :=
      (mem_speakersSeen _ _).mpr ⟨sg, hm, rfl⟩
    rcases lookup_assignRoles_of_mem segments sg.speaker_id hmem with h | h
    · exact ⟨Role.agent, h, by simp⟩
    · exact ⟨Role.customer, h, by simp⟩
  constructor
  · exact key seg
  · intro hmem
    cases segments with
    | nil => simp [normalize_from_speech] at hmem
    | cons a l =>
      rw [normalize_from_speech_cons] at hmem
      rcases List.mem_map.mp hmem with ⟨sg, hsg, rfl⟩
      obtain ⟨r, hr, hne⟩ := key sg hsg
      simpa [hr] using hne

/-- Witness for C10: on the concrete three-segment scenario the lookup for
SPEAKER_01 succeeds with a non-unknown role, and the concrete first turn
produced by `normalize_from_speech` does not have role `unknown`. -/
theorem claim_C10_witness :
    (∃ r, (assignRolesFromSpeakers [segW1, segW2, segW3]).lookup "SPEAKER_01" = some r
      ∧ r ≠ Role.unknown)
    ∧ turnW.role ≠ Role.unknown := by
  exact ⟨(claim_C10 [segW1, segW2, segW3] segW1 turnW).1 (by decide),
    (claim_C10 [segW1, segW2, segW3] segW1 turnW).2 (by decide)⟩

/-! ## Lemmas about the string helpers -/

theorem data_eq_nil_iff (s : String) : s.data = [] ↔ s = "" :=
  ⟨fun h => String.ext (h.trans rfl), fun h => by rw [h]⟩

theorem splitCharList_cons_sep (sep : Char) (cs : List Char) :
    splitCharList sep (sep :: cs) = [] :: splitCharList sep cs := by
  simp [splitCharList]

theorem splitCharList_cons_ne (sep c : Char) (cs : List Char) (hc : ¬ c = sep) :
    splitCharList sep (c :: cs)
      = match splitCharList sep cs with
        | [] => [[c]]
        | h :: t => (c :: h) :: t := by
  simp [splitCharList, hc]

theorem splitCharList_ne_nil (sep : Char) (l : List Char) : splitCharList sep l ≠ [] := by
  induction l with
  | nil => simp [splitCharList]
  | cons c cs ih =>
    by_cases hc : c = sep
    · subst hc
      rw [splitCharList_cons_sep]
      simp
    · rw [splitCharList_cons_ne sep c cs hc]
      cases h : splitCharList sep cs with
      | nil => simp
      | cons hd tl => simp

theorem not_mem_of_mem_splitCharList (sep : Char) (l : List Char) (p : List Char)
    (h : p ∈ splitCharList sep l) : sep ∉ p := by
  induction l generalizing p with
  | nil =>
    simp [splitCharList] at h
    subst h
    simp
  | cons c cs ih =>
    by_cases hc : c = sep
    · subst hc
      rw [splitCharList_cons_sep] at h
      rcases List.mem_cons.mp h with rfl | h2
      · simp
      · exact ih p h2
    · rw [splitCharList_cons_ne sep c cs hc] at h
      cases hs : splitCharList sep cs with
      | nil => exact absurd hs (splitCharList_ne_nil sep cs)
      | cons hd tl =>
        rw [hs] at h
        rcases List.mem_cons.mp h with rfl | h2
        · intro hmem
          rcases List.mem_cons.mp hmem with h3 | h3
          · exact hc h3.symm
          · have hhd : hd ∈ splitCharList sep cs := by
              rw [hs]
              exact List.mem_cons_self hd tl
            exact ih hd hhd h3
        · have hp : p ∈ splitCharList sep cs := by
            rw [hs]
            exact List.mem_cons_of_mem hd h2
          exact ih p hp

theorem splitCharList_of_not_mem (sep : Char) (x : List Char) (h : sep ∉ x) :
    splitCharList sep x = [x] := by
  induction x with
  | nil => rfl
  | cons c cs ih =>
    have hc : ¬ c = sep := fun e => h (by rw [e]; exact List.mem_cons_self sep cs)
    have h2 : sep ∉ cs := fun e => h (List.mem_cons_of_mem c e)
    rw [splitCharList_cons_ne sep c cs hc, ih h2]

theorem splitCharList_append (sep : Char) (x rest : List Char) (h : sep ∉ x) :
    splitCharList sep (x ++ sep :: rest) = x :: splitCharList sep rest := by
  induction x with
  | nil =>
    rw [List.nil_append, splitCharList_cons_sep]
  | cons c cs ih =>
    have hc : ¬ c = sep := fun e => h (by rw [e]; exact List.mem_cons_self sep cs)
    have h2 : sep ∉ cs := fun e => h (List.mem_cons_of_mem c e)
    rw [List.cons_append, splitCharList_cons_ne sep c _ hc, ih h2]

theorem splitCharList_joinSep (sep : Char) (xs : List (List Char)) (hne : xs ≠ [])
    (hfree : ∀ p, p ∈ xs → sep ∉ p) :
    splitCharList sep (joinSep [sep] xs) = xs := by
  induction xs with
  | nil => exact absurd rfl hne
  | cons x ys ih =>
    cases ys with
    | nil =>
      show splitCharList sep x = [x]
      exact splitCharList_of_not_mem sep x (hfree x (List.mem_cons_self x []))
    | cons y t =>
      have hx : sep ∉ x := hfree x (List.mem_cons_self _ _)
      have hj : joinSep [sep] (x :: y :: t) = x ++ sep :: joinSep [sep] (y :: t) := by
        show x ++ [sep] ++ joinSep [sep] (y :: t) = _
        rw [List.append_assoc]
        rfl
      rw [hj, splitCharList_append sep x _ hx]
      rw [ih (by simp) (fun p hp => hfree p (List.mem_cons_of_mem x hp))]

theorem joinSep_ne_nil (sep : List Char) (x : List Char) (rest : List (List Char))
    (hx : x ≠ []) : joinSep sep (x :: rest) ≠ [] := by
  cases rest with
  | nil => exact hx
  | cons y t =>
    show x ++ sep ++ joinSep sep (y :: t) ≠ []
    intro h
    rw [List.append_eq_nil, List.append_eq_nil] at h
    exact hx h.1.1

theorem mem_of_mem_stripList (c : Char) (l : List Char) (h : c ∈ stripList l) : c ∈ l := by
  unfold stripList at h
  rw [List.mem_reverse] at h
  have h2 := (List.dropWhile_sublist _).subset h
  rw [List.mem_reverse] at h2
  exact (List.dropWhile_sublist _).subset h2

theorem stripList_eq_nil (l : List Char) (h : l.all isSpaceChar) : stripList l = [] := by
  unfold stripList
  have h1 : l.dropWhile isSpaceChar = [] := by
    rw [List.dropWhile_eq_nil_iff]
    intro x hx
    exact List.all_eq_true.mp h x hx
  rw [h1]
  rfl

theorem countLines_pyJoin (parts : List String)
    (h : ∀ p, p ∈ parts → p ≠ "" ∧ '\n' ∉ p.data) :
    countLines (pyJoin "\n" parts) = parts.length := by
  cases parts with
  | nil => rfl
  | cons x rest =>
    have hx := h x (List.mem_cons_self _ _)
    have hxd : x.data ≠ [] := fun e => hx.1 ((data_eq_nil_iff x).mp e)
    have hsplit : splitCharList '\n' (joinSep ['\n'] ((x :: rest).map String.data))
        = (x :: rest).map String.data := by
      apply splitCharList_joinSep
      · simp
      · intro p hp
        rcases List.mem_map.mp hp with ⟨q, hq, rfl⟩
        exact (h q hq).2
    have hjoin_ne : joinSep ['\n'] ((x :: rest).map String.data) ≠ [] := by
      rw [List.map_cons]
      exact joinSep_ne_nil _ _ _ hxd
    have hs_ne : pyJoin "\n" (x :: rest) ≠ "" := by
      intro e
      apply hjoin_ne
      have hd : (pyJoin "\n" (x :: rest)).data = [] := (data_eq_nil_iff _).mpr e
      exact hd
    unfold countLines
    rw [if_neg hs_ne]
    show ((splitCharList '\n' (joinSep ['\n'] ((x :: rest).map String.data))).map String.mk).length = _
    rw [hsplit]
    simp

/-! ## Lemmas about the text-path parser -/

theorem mem_parsedLines_ne_empty (T line : String) (h : line ∈ parsedLines T) :
    line ≠ "" := by
  unfold parsedLines at h
  have h2 := (List.mem_filter.mp h).2
  simpa using h2

theorem mem_parsedLines_no_newline (T line : String) (h : line ∈ parsedLines T) :
    '\n' ∉ line.data := by
  unfold parsedLines at h
  have h1 := (List.mem_filter.mp h).1
  rcases List.mem_map.mp h1 with ⟨piece, hp, rfl⟩
  unfold splitLines at hp
  rcases List.mem_map.mp hp with ⟨pl, hpl, rfl⟩
  intro hmem
  have h2 : '\n' ∈ pl := mem_of_mem_stripList _ _ hmem
  exact not_mem_of_mem_splitCharList '\n' _ pl hpl h2

theorem enum_getElem? (l : List α) (i : Nat) :
    l.enum[i]? = l[i]?.map (fun a => (i, a)) := by
  show (List.enumFrom 0 l)[i]? = _
  rw [List.getElem?_enumFrom]
  simp

theorem enum_length (l : List α) : l.enum.length = l.length := by
  show (List.enumFrom 0 l).length = _
  rw [List.enumFrom_length]

theorem mem_enum_getElem? (l : List α) (p : Nat × α) (h : p ∈ l.enum) :
    l[p.1]? = some p.2 := by
  rcases List.mem_iff_getElem?.mp h with ⟨j, hj⟩
  rw [enum_getElem?] at hj
  cases hL : l[j]? with
  | none => rw [hL] at hj; simp at hj
  | some a =>
    rw [hL] at hj
    simp only [Option.map_some'] at hj
    have h2 := Option.some.inj hj
    rw [← h2]
    exact hL

theorem mem_normalize_from_text (T lang : String) (i : Nat) (line : String)
    (hL : (parsedLines T)[i]? = some line) (t : ConversationTurn)
    (ht : mkTextTurn lang i line = some t) : t ∈ normalize_from_text T lang := by
  unfold normalize_from_text
  rw [List.mem_filterMap]
  refine ⟨(i, line), ?_, ht⟩
  rw [List.mem_iff_getElem?]
  refine ⟨i, ?_⟩
  rw [enum_getElem?, hL]
  rfl

theorem normalize_from_text_mem_inv (T lang : String) (t : ConversationTurn)
    (h : t ∈ normalize_from_text T lang) :
    ∃ i line, (parsedLines T)[i]? = some line ∧ mkTextTurn lang i line = some t := by
  unfold normalize_from_text at h
  rcases List.mem_filterMap.mp h with ⟨p, hp, hf⟩
  have hL := mem_enum_getElem? _ p hp
  exact ⟨p.1, p.2, hL, hf⟩

theorem mkTextTurn_eq_some (lang : String) (i : Nat) (line : String)
    (role : Role) (text spk : String)
    (hc : classifyLine i line = (role, text, spk)) (hne : text ≠ "") :
    mkTextTurn lang i line
      = some ⟨spk, role, text, text, lang, none, none, none⟩ := by
  unfold mkTextTurn
  rw [hc]
  simp [hne]

theorem mkTextTurn_some (lang : String) (i : Nat) (line : String) (t : ConversationTurn)
    (h : mkTextTurn lang i line = some t) :
    classifyLine i line = (t.role, t.original_text, t.speaker_id)
    ∧ t.original_text ≠ ""
    ∧ t.normalized_text_en = t.original_text
    ∧ t.language = lang
    ∧ t.emotion = none
    ∧ t.start_time = none
    ∧ t.end_time = none := by
  rcases hc : classifyLine i line with ⟨role, rest⟩
  rcases rest with ⟨text, spk⟩
  unfold mkTextTurn at h
  rw [hc] at h
  by_cases he : text = ""
  · simp [he] at h
  · rw [if_neg he] at h
    have ht := Option.some.inj h
    rw [← ht]
    exact ⟨rfl, he, rfl, rfl, rfl, rfl, rfl⟩

theorem mkTextTurn_isSome (lang : String) (i : Nat) (line : String) :
    (mkTextTurn lang i line).isSome = decide ((classifyLine i line).2.1 ≠ "") := by
  unfold mkTextTurn
  by_cases he : (classifyLine i line).2.1 = ""
  · simp [he]
  · simp [he]

/-! ## Classification characterization lemmas -/

theorem classify_agent (line : String) (text : String) (i : Nat)
    (h : matchLabel agentAliases line = some text) :
    classifyLine i line = (Role.agent, text, "AGENT") := by
  unfold classifyLine
  rw [h]

theorem classify_customer (line : String) (text : String) (i : Nat)
    (hA : matchLabel agentAliases line = none)
    (h : matchLabel customerAliases line = some text) :
    classifyLine i line = (Role.customer, text, "CUSTOMER") := by
  unfold classifyLine
  rw [hA, h]

theorem classify_speaker (line : String) (grp text : String) (i : Nat)
    (hA : matchLabel agentAliases line = none)
    (hC : matchLabel customerAliases line = none)
    (h : matchSpeaker line = some (grp, text)) :
    classifyLine i line
      = (if upperStr grp = "SPEAKER_00" then Role.agent else Role.customer,
         text, upperStr grp) := by
  unfold classifyLine
  rw [hA, hC, h]

theorem classify_fallback_even (line : String) (i : Nat)
    (hA : matchLabel agentAliases line = none)
    (hC : matchLabel customerAliases line = none)
    (hS : matchSpeaker line = none)
    (hp : i % 2 = 0) :
    classifyLine i line = (Role.agent, line, "AGENT") := by
  unfold classifyLine
  rw [hA, hC, hS]
  simp [hp]

theorem classify_fallback_odd (line : String) (i : Nat)
    (hA : matchLabel agentAliases line = none)
    (hC : matchLabel customerAliases line = none)
    (hS : matchSpeaker line = none)
    (hp : ¬ i % 2 = 0) :
    classifyLine i line = (Role.customer, line, "CUSTOMER") := by
  unfold classifyLine
  rw [hA, hC, hS]
  simp [hp]

/-! ## The classified text only contains characters of the line -/

theorem dropPrefixCI_subset (pre l rest : List Char)
    (h : dropPrefixCI pre l = some rest) : ∀ c, c ∈ rest → c ∈ l := by
  unfold dropPrefixCI at h
  split at h
  · have h2 := Option.some.inj h
    rw [← h2]
    intro c hc
    exact (List.drop_sublist _ _).subset hc
  · exact absurd h (by simp)

theorem stripSep_eq_none_of (l : List Char) (hd : l.dropWhile isSpaceChar = []) :
    stripSep l = none := by
  unfold stripSep
  rw [hd]
  rfl

theorem stripSep_eq_of (l : List Char) (c0 : Char) (rest : List Char)
    (hd : l.dropWhile isSpaceChar = c0 :: rest) :
    stripSep l = if c0 = ':' ∨ c0 = '-' then some rest else none := by
  unfold stripSep
  rw [hd]
  rfl

theorem stripSep_subset (l tail : List Char) (h : stripSep l = some tail) :
    ∀ c, c ∈ tail → c ∈ l := by
  cases hd : l.dropWhile isSpaceChar with
  | nil =>
    rw [stripSep_eq_none_of l hd] at h
    exact absurd h (by simp)
  | cons c0 rest =>
    rw [stripSep_eq_of l c0 rest hd] at h
    split at h
    · have h2 := Option.some.inj h
      rw [← h2]
      intro c hc
      have h3 : c ∈ l.dropWhile isSpaceChar := by
        rw [hd]
        exact List.mem_cons_of_mem c0 hc
      exact (List.dropWhile_sublist _).subset h3
    · exact absurd h (by simp)

theorem labelText_eq_none_of (a line : String)
    (hd : dropPrefixCI a.data line.data = none) : labelText a line = none := by
  unfold labelText
  rw [hd]
  rfl

theorem labelText_eq_of (a line : String) (rest : List Char)
    (hd : dropPrefixCI a.data line.data = some rest) :
    labelText a line
      = (stripSep rest).map fun tail => String.mk (stripList tail) := by
  unfold labelText
  rw [hd]
  rfl

theorem labelText_subset (a line text : String)
    (h : labelText a line = some text) : ∀ c, c ∈ text.data → c ∈ line.data := by
  cases hd : dropPrefixCI a.data line.data with
  | none =>
    rw [labelText_eq_none_of a line hd] at h
    exact absurd h (by simp)
  | some rest =>
    rw [labelText_eq_of a line rest hd] at h
    cases hs : stripSep rest with
    | none =>
      rw [hs] at h
      exact absurd h (by simp)
    | some tail =>
      rw [hs, Option.map_some'] at h
      have h2 := Option.some.inj h
      rw [← h2]
      intro c hc
      have hc1 : c ∈ tail := mem_of_mem_stripList c tail hc
      exact dropPrefixCI_subset a.data line.data rest hd c
        (stripSep_subset rest tail hs c hc1)

theorem matchLabel_cons_none (a : String) (rest : List String) (line : String)
    (hl : labelText a line = none) :
    matchLabel (a :: rest) line = matchLabel rest line := by
  simp only [matchLabel, List.findSome?_cons, hl]

theorem matchLabel_cons_some (a : String) (rest : List String) (line : String)
    (t : String) (hl : labelText a line = some t) :
    matchLabel (a :: rest) line = some t := by
  simp only [matchLabel, List.findSome?_cons, hl]

theorem matchLabel_subset (aliases : List String) (line text : String)
    (h : matchLabel aliases line = some text) : ∀ c, c ∈ text.data → c ∈ line.data := by
  induction aliases with
  | nil => simp [matchLabel] at h
  | cons a rest ih =>
    cases hl : labelText a line with
    | none =>
      rw [matchLabel_cons_none a rest line hl] at h
      exact ih h
    | some t0 =>
      rw [matchLabel_cons_some a rest line t0 hl] at h
      have h2 := Option.some.inj h
      rw [← h2]
      exact labelText_subset a line t0 hl

theorem matchSpeaker_eq_none_of (line : String)
    (hd : dropPrefixCI "SPEAKER_".data line.data = none) : matchSpeaker line = none := by
  unfold matchSpeaker
  rw [hd]
  rfl

theorem matchSpeaker_eq_of (line : String) (rest : List Char)
    (hd : dropPrefixCI "SPEAKER_".data line.data = some rest) :
    matchSpeaker line
      = if rest.takeWhile Char.isDigit = [] then none
        else
          (stripSep (rest.drop (rest.takeWhile Char.isDigit).length)).map fun tail =>
            (String.mk (line.data.take (8 + (rest.takeWhile Char.isDigit).length)),
             String.mk (stripList tail)) := by
  unfold matchSpeaker
  rw [hd]
  rfl

theorem matchSpeaker_subset (line grp text : String)
    (h : matchSpeaker line = some (grp, text)) : ∀ c, c ∈ text.data → c ∈ line.data := by
  cases hd : dropPrefixCI "SPEAKER_".data line.data with
  | none =>
    rw [matchSpeaker_eq_none_of line hd] at h
    exact absurd h (by simp)
  | some rest =>
    rw [matchSpeaker_eq_of line rest hd] at h
    by_cases hdig : rest.takeWhile Char.isDigit = []
    · rw [if_pos hdig] at h
      exact absurd h (by simp)
    · rw [if_neg hdig] at h
      cases hs : stripSep (rest.drop (rest.takeWhile Char.isDigit).length) with
      | none =>
        rw [hs] at h
        exact absurd h (by simp)
      | some tail =>
        rw [hs, Option.map_some'] at h
        have h2 := Option.some.inj h
        have h3 : text = String.mk (stripList tail) := (congrArg Prod.snd h2).symm
        rw [h3]
        intro c hc
        have hc1 : c ∈ tail := mem_of_mem_stripList c tail hc
        have hc2 : c ∈ rest.drop (rest.takeWhile Char.isDigit).length :=
          stripSep_subset _ tail hs c hc1
        have hc3 : c ∈ rest := (List.drop_sublist _ _).subset hc2
        exact dropPrefixCI_subset _ line.data rest hd c hc3

theorem classify_text_subset (i : Nat) (line : String) :
    ∀ c, c ∈ (classifyLine i line).2.1.data → c ∈ line.data := by
  cases hA : matchLabel agentAliases line with
  | some text =>
    rw [classify_agent line text i hA]
    exact matchLabel_subset agentAliases line text hA
  | none =>
    cases hC : matchLabel customerAliases line with
    | some text =>
      rw [classify_customer line text i hA hC]
      exact matchLabel_subset customerAliases line text hC
    | none =>
      cases hS : matchSpeaker line with
      | some p =>
        rcases p with ⟨grp, text⟩
        rw [classify_speaker line grp text i hA hC hS]
        exact matchSpeaker_subset line grp text hS
      | none =>
        by_cases hp : i % 2 = 0
        · rw [classify_fallback_even line i hA hC hS hp]
          exact fun c hc => hc
        · rw [classify_fallback_odd line i hA hC hS hp]
          exact fun c hc => hc

/-! ## filterMap helpers -/

theorem filterMap_eq_map_of_forall (l : List α) (f : α → Option β) (g : α → β)
    (h : ∀ a, a ∈ l → f a = some (g a)) : l.filterMap f = l.map g := by
  induction l with
  | nil => rfl
  | cons a t ih =>
    rw [List.filterMap_cons_some (h a (List.mem_cons_self _ _)), List.map_cons,
      ih (fun x hx => h x (List.mem_cons_of_mem a hx))]

theorem length_filterMap_eq_length_filter (l : List α) (f : α → Option β) :
    (l.filterMap f).length = (l.filter (fun a => (f a).isSome)).length := by
  induction l with
  | nil => rfl
  | cons a t ih =>
    rw [List.filterMap_cons, List.filter_cons]
    cases hf : f a with
    | none => simp [hf, ih]
    | some b => simp [hf, ih]

/-! ## Claim theorems: text path -/

/-- C2 (amended): for a non-blank line matching the diarized-speaker prefix
(and no explicit agent/customer alias), the emitted turn's speaker
identifier is the uppercased label text, and its role is `agent` exactly
when that identifier equals the hardcoded constant "SPEAKER_00" —
`customer` for every other diarized index, regardless of which labels
occur elsewhere in the transcript. -/
theorem claim_C2 (T lang line grp text : String)
    (hline : line ∈ parsedLines T)
    (hA : matchLabel agentAliases line = none)
    (hC : matchLabel customerAliases line = none)
    (hS : matchSpeaker line = some (grp, text))
    (hne : text ≠ "") :
    (⟨upperStr grp,
      if upperStr grp = "SPEAKER_00" then Role.agent else Role.customer,
      text, text, lang, none, none, none⟩ : ConversationTurn)
      ∈ normalize_from_text T lang := by
  rcases List.mem_iff_getElem?.mp hline with ⟨i, hi⟩
  exact mem_normalize_from_text T lang i line hi _
    (mkTextTurn_eq_some lang i line _ text (upperStr grp)
      (classify_speaker line grp text i hA hC hS) hne)

/-- Counterexample to C2 as stated: in the transcript "SPEAKER_01: hi" the
lexically first (indeed only) diarized index present is SPEAKER_01, so the
claim requires its turn to get role agent; the code compares against the
hardcoded "SPEAKER_00" and yields role customer. -/
theorem claim_C2_cex :
    normalize_from_text "SPEAKER_01: hi" "en"
      = [⟨"SPEAKER_01", Role.customer, "hi", "hi", "en", none, none, none⟩] := by
  decide

/-- Witness for C2: the line "SPEAKER_00: ok" produces a turn with the
uppercased identifier SPEAKER_00 and role agent. -/
theorem claim_C2_witness :
    (⟨"SPEAKER_00", Role.agent, "ok", "ok", "en", none, none, none⟩ : ConversationTurn)
      ∈ normalize_from_text "SPEAKER_00: ok" "en" := by
  have h := claim_C2 "SPEAKER_00: ok" "en" "SPEAKER_00: ok" "SPEAKER_00" "ok"
    (by decide) (by decide) (by decide) (by decide) (by decide)
  exact h

/-- C4: a line starting (case-insensitively) with an agent-side alias
followed by a colon or hyphen yields a turn with role agent, the constant
speaker identifier "AGENT", and text equal to the remainder of the line
after the label and separator are removed; symmetrically a customer-side
alias yields role customer and identifier "CUSTOMER" — at any line
position.  (The classification is first-match-wins, so the customer case
additionally records that no agent alias matched.) -/
theorem claim_C4 (T lang line text : String) (hline : line ∈ parsedLines T) :
    (matchLabel agentAliases line = some text → text ≠ "" →
      (⟨"AGENT", Role.agent, text, text, lang, none, none, none⟩ : ConversationTurn)
        ∈ normalize_from_text T lang)
    ∧ (matchLabel agentAliases line = none →
       matchLabel customerAliases line = some text → text ≠ "" →
      (⟨"CUSTOMER", Role.customer, text, text, lang, none, none, none⟩ : ConversationTurn)
        ∈ normalize_from_text T lang) := by
  rcases List.mem_iff_getElem?.mp hline with ⟨i, hi⟩
  constructor
  · intro hA hne
    exact mem_normalize_from_text T lang i line hi _
      (mkTextTurn_eq_some lang i line Role.agent text "AGENT"
        (classify_agent line text i hA) hne)
  · intro hA hC hne
    exact mem_normalize_from_text T lang i line hi _
      (mkTextTurn_eq_some lang i line Role.customer text "CUSTOMER"
        (classify_customer line text i hA hC) hne)

/-- Witness for C4: "Agent: hi" yields the agent turn and "Customer - yo"
yields the customer turn. -/
theorem claim_C4_witness :
    (⟨"AGENT", Role.agent, "hi", "hi", "en", none, none, none⟩ : ConversationTurn)
      ∈ normalize_from_text "Agent: hi\nCustomer - yo" "en"
    ∧ (⟨"CUSTOMER", Role.customer, "yo", "yo", "en", none, none, none⟩ : ConversationTurn)
      ∈ normalize_from_text "Agent: hi\nCustomer - yo" "en" := by
  constructor
  · exact (claim_C4 "Agent: hi\nCustomer - yo" "en" "Agent: hi" "hi"
      (by decide)).1 (by decide) (by decide)
  · exact (claim_C4 "Agent: hi\nCustomer - yo" "en" "Customer - yo" "yo"
      (by decide)).2 (by decide) (by decide) (by decide)

/-- C5: when no line of the transcript carries a recognized label, roles
alternate by zero-based position among the non-blank parsed lines: even
position gives agent/"AGENT", odd position gives customer/"CUSTOMER", and
no line is dropped (fallback text is the whole non-blank line). -/
theorem claim_C5 (T lang : String)
    (hnolabel : ∀ line, line ∈ parsedLines T →
      matchLabel agentAliases line = none
      ∧ matchLabel customerAliases line = none
      ∧ matchSpeaker line = none) :
    (normalize_from_text T lang).length = (parsedLines T).length
    ∧ ∀ i line, (parsedLines T)[i]? = some line →
        (normalize_from_text T lang)[i]? = some
          (⟨if i % 2 = 0 then "AGENT" else "CUSTOMER",
            if i % 2 = 0 then Role.agent else Role.customer,
            line, line, lang, none, none, none⟩ : ConversationTurn) := by
  have hturn : ∀ p : Nat × String, p ∈ (parsedLines T).enum →
      mkTextTurn lang p.1 p.2 = some
        ⟨if p.1 % 2 = 0 then "AGENT" else "CUSTOMER",
         if p.1 % 2 = 0 then Role.agent else Role.customer,
         p.2, p.2, lang, none, none, none⟩ := by
    intro p hp
    have hpl : (parsedLines T)[p.1]? = some p.2 := mem_enum_getElem? _ p hp
    have hmem : p.2 ∈ parsedLines T := List.getElem?_mem hpl
    obtain ⟨hA, hC, hS⟩ := hnolabel p.2 hmem
    have hne : p.2 ≠ "" := mem_parsedLines_ne_empty T p.2 hmem
    by_cases hpar : p.1 % 2 = 0
    · rw [if_pos hpar, if_pos hpar]
      exact mkTextTurn_eq_some lang p.1 p.2 Role.agent p.2 "AGENT"
        (classify_fallback_even p.2 p.1 hA hC hS hpar) hne
    · rw [if_neg hpar, if_neg hpar]
      exact mkTextTurn_eq_some lang p.1 p.2 Role.customer p.2 "CUSTOMER"
        (classify_fallback_odd p.2 p.1 hA hC hS hpar) hne
  have hmap : normalize_from_text T lang
      = (parsedLines T).enum.map (fun p =>
          ⟨if p.1 % 2 = 0 then "AGENT" else "CUSTOMER",
           if p.1 % 2 = 0 then Role.agent else Role.customer,
           p.2, p.2, lang, none, none, none⟩) := by
    unfold normalize_from_text
    exact filterMap_eq_map_of_forall _ _ _ (fun p hp => hturn p hp)
  constructor
  · rw [hmap, List.length_map, enum_length]
  · intro i line hi
    rw [hmap, List.getElem?_map, enum_getElem?, hi]
    rfl

/-- Witness for C5: a two-line transcript with no labels alternates
agent/customer starting at agent. -/
theorem claim_C5_witness :
    (normalize_from_text "hello there\nsecond line" "en")[0]?
      = some (⟨"AGENT", Role.agent, "hello there", "hello there", "en",
          none, none, none⟩ : ConversationTurn)
    ∧ (normalize_from_text "hello there\nsecond line" "en")[1]?
      = some (⟨"CUSTOMER", Role.customer, "second line", "second line", "en",
          none, none, none⟩ : ConversationTurn) := by
  constructor
  · exact (claim_C5 "hello there\nsecond line" "en" (by decide)).2 0 "hello there" (by decide)
  · exact (claim_C5 "hello there\nsecond line" "en" (by decide)).2 1 "second line" (by decide)

/-- C6: every turn emitted by the text-path parser has non-empty original
text, and `normalized_text_en` equals `original_text`; lines whose text
becomes empty after prefix stripping never yield a turn. -/
theorem claim_C6 (T lang : String) (t : ConversationTurn)
    (h : t ∈ normalize_from_text T lang) :
    t.original_text ≠ "" ∧ t.normalized_text_en = t.original_text := by
  rcases normalize_from_text_mem_inv T lang t h with ⟨i, line, hL, ht⟩
  have hp := mkTextTurn_some lang i line t ht
  exact ⟨hp.2.1, hp.2.2.1⟩

/-- Witness for C6: the single turn of "Agent: hi" has non-empty text equal
to its normalized text (and the empty-remainder line "Customer:" of the
same transcript is dropped, leaving one turn). -/
theorem claim_C6_witness :
    (⟨"AGENT", Role.agent, "hi", "hi", "en", none, none, none⟩ : ConversationTurn).original_text ≠ ""
    ∧ (⟨"AGENT", Role.agent, "hi", "hi", "en", none, none, none⟩ : ConversationTurn).normalized_text_en
      = (⟨"AGENT", Role.agent, "hi", "hi", "en", none, none, none⟩ : ConversationTurn).original_text := by
  exact claim_C6 "Agent: hi\nCustomer:" "en"
    ⟨"AGENT", Role.agent, "hi", "hi", "en", none, none, none⟩ (by decide)
/-! ## Renderer lemmas and remaining claims -/

theorem renderTurnLine_eq (t : ConversationTurn) :
    renderTurnLine t
      = (match t.role with
         | Role.agent => "Agent"
         | Role.customer => "Customer"
         | Role.unknown => "Unknown")
        ++ (match t.emotion with
            | some e => if e = "" then "" else " [" ++ e ++ "]"
            | none => "")
        ++ ": " ++ t.normalized_text_en := by
  unfold renderTurnLine
  cases t.role <;> cases t.emotion <;> rfl

theorem renderTurnLine_props (t : ConversationTurn)
    (htext : '\n' ∉ t.normalized_text_en.data)
    (hemo : ∀ e, t.emotion = some e → '\n' ∉ e.data) :
    renderTurnLine t ≠ "" ∧ '\n' ∉ (renderTurnLine t).data := by
  rw [renderTurnLine_eq]
  have hlab : (match t.role with
      | Role.agent => "Agent"
      | Role.customer => "Customer"
      | Role.unknown => "Unknown").data ≠ []
      ∧ '\n' ∉ (match t.role with
      | Role.agent => "Agent"
      | Role.customer => "Customer"
      | Role.unknown => "Unknown").data := by
    cases t.role <;> exact ⟨by decide, by decide⟩
  have htag : '\n' ∉ (match t.emotion with
      | some e => if e = "" then "" else " [" ++ e ++ "]"
      | none => "").data := by
    cases he : t.emotion with
    | none => decide
    | some e =>
      show '\n' ∉ (if e = "" then "" else " [" ++ e ++ "]").data
      by_cases hee : e = ""
      · rw [if_pos hee]
        decide
      · rw [if_neg hee]
        have hn := hemo e he
        have h1 : '\n' ∉ " [".data := by decide
        have h2 : '\n' ∉ "]".data := by decide
        simp only [String.data_append, List.mem_append]
        rintro ((ha | hb) | hc)
        · exact h1 ha
        · exact hn hb
        · exact h2 hc
  have hcolon : '\n' ∉ ": ".data := by decide
  constructor
  · intro e0
    have hd0 := (data_eq_nil_iff _).mpr e0
    simp only [String.data_append, List.append_eq_nil] at hd0
    exact hlab.1 hd0.1.1.1
  · intro hmem
    simp only [String.data_append, List.mem_append] at hmem
    rcases hmem with (((ha | hb) | hc) | hd)
    · exact hlab.2 ha
    · exact htag hb
    · exact hcolon hc
    · exact htext hd

/-- C7: the renderer emits one line per turn, formatted as the capitalized
role label ("Agent"/"Customer"/"Unknown"), an " [emotion]" tag only when
the turn carries a (truthy) emotion value, then ": " and the turn's
normalized text; lines are joined by a single newline with no trailing
newline, the empty sequence giving the empty string, and when no field
contains a newline the rendered string has exactly one line per turn. -/
theorem claim_C7 (turns : List ConversationTurn) :
    turns_to_dialogue_string turns
      = pyJoin "\n" (turns.map (fun t =>
          (match t.role with
           | Role.agent => "Agent"
           | Role.customer => "Customer"
           | Role.unknown => "Unknown")
          ++ (match t.emotion with
              | some e => if e = "" then "" else " [" ++ e ++ "]"
              | none => "")
          ++ ": " ++ t.normalized_text_en))
    ∧ turns_to_dialogue_string [] = ""
    ∧ ((∀ t, t ∈ turns → '\n' ∉ t.normalized_text_en.data
          ∧ ∀ e, t.emotion = some e → '\n' ∉ e.data) →
        countLines (turns_to_dialogue_string turns) = turns.length) := by
  refine ⟨?_, rfl, ?_⟩
  · unfold turns_to_dialogue_string
    congr 1
    exact List.map_congr_left (fun t ht => renderTurnLine_eq t)
  · intro hfree
    have h2 : ∀ p, p ∈ turns.map renderTurnLine → p ≠ "" ∧ '\n' ∉ p.data := by
      intro p hp
      rcases List.mem_map.mp hp with ⟨t, ht, rfl⟩
      exact renderTurnLine_props t (hfree t ht).1 (hfree t ht).2
    unfold turns_to_dialogue_string
    rw [countLines_pyJoin (turns.map renderTurnLine) h2, List.length_map]

/-- Witness for C7 at a concrete one-turn list carrying an emotion. -/
theorem claim_C7_witness :
    countLines (turns_to_dialogue_string
      [⟨"AGENT", Role.agent, "hi", "hi", "en", some "anger", none, none⟩]) = 1 := by
  apply (claim_C7 [⟨"AGENT", Role.agent, "hi", "hi", "en", some "anger", none, none⟩]).2.2
  intro t ht
  rw [List.mem_singleton] at ht
  subst ht
  refine ⟨by decide, ?_⟩
  intro e he
  have he2 : "anger" = e := Option.some.inj he
  rw [← he2]
  decide

/-- C8: round-trip line count — the rendered dialogue of a parsed transcript
has exactly as many lines (splitting on newlines, empty string counting as
zero) as there are non-blank lines of the transcript whose text is
non-empty after prefix stripping. -/
theorem claim_C8 (T lang : String) :
    countLines (turns_to_dialogue_string (normalize_from_text T lang))
      = ((parsedLines T).enum.filter
          (fun p => decide ((classifyLine p.1 p.2).2.1 ≠ ""))).length := by
  have hfree : ∀ t, t ∈ normalize_from_text T lang →
      renderTurnLine t ≠ "" ∧ '\n' ∉ (renderTurnLine t).data := by
    intro t ht
    rcases normalize_from_text_mem_inv T lang t ht with ⟨i, line, hL, hmk⟩
    have hp := mkTextTurn_some lang i line t hmk
    apply renderTurnLine_props
    · rw [hp.2.2.1]
      intro hmem
      have h1 : '\n' ∈ (classifyLine i line).2.1.data := by
        rw [hp.1]
        exact hmem
      have h2 := classify_text_subset i line '\n' h1
      exact mem_parsedLines_no_newline T line (List.getElem?_mem hL) h2
    · intro e he
      rw [hp.2.2.2.2.1] at he
      exact absurd he (by simp)
  have hparts : ∀ p, p ∈ (normalize_from_text T lang).map renderTurnLine →
      p ≠ "" ∧ '\n' ∉ p.data := by
    intro p hp
    rcases List.mem_map.mp hp with ⟨t, ht, rfl⟩
    exact hfree t ht
  unfold turns_to_dialogue_string
  rw [countLines_pyJoin _ hparts, List.length_map]
  unfold normalize_from_text
  rw [length_filterMap_eq_length_filter]
  congr 1
  apply List.filter_congr
  intro p hp
  exact mkTextTurn_isSome lang p.1 p.2

/-- C9: degenerate inputs resolve to the empty output without any failure
path: the empty segment list, the empty transcript and a whitespace-only
transcript all normalize to the empty turn sequence, and rendering the
empty sequence gives the empty string.  (All modelled operations are total
functions; there is no error value to propagate.) -/
theorem claim_C9 (T lang : String) :
    normalize_from_speech [] = []
    ∧ normalize_from_text "" lang = []
    ∧ (T.data.all isSpaceChar → normalize_from_text T lang = [])
    ∧ turns_to_dialogue_string [] = "" := by
  refine ⟨rfl, rfl, ?_, rfl⟩
  intro h
  have h1 : pyStrip T = "" := by
    unfold pyStrip
    rw [stripList_eq_nil T.data h]
  unfold normalize_from_text parsedLines
  rw [h1]
  rfl

/-- Witness for C9 at the spec's blank-only transcript. -/
theorem claim_C9_witness : normalize_from_text "   \n\n  " "en" = [] :=
  (claim_C9 "   \n\n  " "en").2.2.1 (by decide)

end ConvI
